import Mathlib

/-!
Verification of the creddy-anthropic token store and authenticating reverse
proxy (Go sources `plugin.go`, `proxy.go`, and the standalone proxy variant).

Shallow embedding conventions:
* `time.Time` instants are embedded as `Int` nanosecond timestamps; the Go
  zero `time.Time` is the instant `0`, and `a.After(b)` is `b < a`.
* The Go map `map[string]*TokenInfo` is embedded as an association list with
  unique keys (Go map keys are unique); map iteration order is irrelevant to
  every property proved here.
* `http.Header` is embedded as an association list from canonical MIME
  header keys to value lists, mirroring Go's `net/http` representation of a
  parsed request (the wire parser stores keys in canonical form).
-/

/-- Embeds Go `TokenInfo` (plugin.go): metadata about an issued token. -/
structure TokenInfo where
  agentID : String
  agentName : String
  scope : String
  expiresAt : Int
  createdAt : Int
deriving Repr, DecidableEq

/-- Embeds the Go `TokenStore` map contents (`map[string]*TokenInfo`). -/
abbrev TokenStore := List (String × TokenInfo)

namespace TokenStore

/-- Go map indexing `s.tokens[token]` (comma-ok form). -/
def lookup (s : TokenStore) (t : String) : Option TokenInfo :=
  (s.find? (fun e => e.1 = t)).map (fun e => e.2)

/-- Embeds `TokenStore.Add` (plugin.go): unconditional insert-or-overwrite. -/
def Add (s : TokenStore) (t : String) (info : TokenInfo) : TokenStore :=
  (t, info) :: s.filter (fun e => e.1 ≠ t)

/-- Embeds `TokenStore.Get` (plugin.go): map lookup, then the lazy expiry
check `time.Now().After(info.ExpiresAt)`, which is the strict comparison
`info.expiresAt < now`. -/
def Get (s : TokenStore) (now : Int) (t : String) : Option TokenInfo :=
  match lookup s t with
  | none => none
  | some info => if info.expiresAt < now then none else some info

/-- Embeds `TokenStore.Remove` (plugin.go): `delete(s.tokens, token)`. -/
def Remove (s : TokenStore) (t : String) : TokenStore :=
  s.filter (fun e => e.1 ≠ t)

/-- Embeds the loop body of `TokenStore.Cleanup` (plugin.go): scan every
entry, delete those with `now.After(info.ExpiresAt)`, count deletions. -/
def cleanupLoop (now : Int) : TokenStore → TokenStore × Nat
  | [] => ([], 0)
  | e :: rest =>
    let out := cleanupLoop now rest
    if e.2.expiresAt < now then (out.1, out.2 + 1) else (e :: out.1, out.2)

/-- Embeds `TokenStore.Cleanup` (plugin.go): returns the surviving store and
the removed count. -/
def Cleanup (s : TokenStore) (now : Int) : TokenStore × Nat :=
  cleanupLoop now s

end TokenStore

/-- Embeds `AnthropicPlugin.RevokeCredential` (plugin.go): removes the token
and returns the Go error value, which is always `nil` (embedded `none`). -/
def RevokeCredential (s : TokenStore) (externalID : String) :
    TokenStore × Option String :=
  (TokenStore.Remove s externalID, none)

/-- Embeds `AnthropicPlugin.ValidateToken` (plugin.go): delegates to
`TokenStore.Get`. -/
def ValidateToken (s : TokenStore) (now : Int) (t : String) : Option TokenInfo :=
  TokenStore.Get s now t

/-! ## HTTP header model (net/http, net/textproto) -/

/-- Go `validHeaderFieldByte`: RFC 7230 token characters. The apostrophe
and backtick characters are written via their code points. -/
def isTokenChar (c : Char) : Bool :=
  c.isAlphanum || c = '!' || c = '#' || c = '$' || c = '%' || c = '&' ||
  c = Char.ofNat 39 || c = '*' || c = '+' || c = '-' || c = '.' ||
  c = '^' || c = '_' || c = Char.ofNat 96 || c = '|' || c = '~'

/-- Casing pass of Go `textproto.canonicalMIMEHeaderKey`: uppercase the
first letter and every letter following a dash, lowercase the rest. -/
def canonChars : List Char → Bool → List Char
  | [], _ => []
  | c :: cs, up =>
    (if up then c.toUpper else c.toLower) :: canonChars cs (c = '-')

/-- Embeds Go `http.CanonicalHeaderKey`: keys containing an invalid byte
are returned unchanged, otherwise canonically cased. -/
def canonicalHeaderKey (s : String) : String :=
  if s.toList.all isTokenChar then (canonChars s.toList true).asString else s

/-- Embeds Go `http.Header`: a map from canonical keys to value lists. -/
abbrev Header := List (String × List String)

/-- Embeds Go `Header.Get`: first value for the canonical key, or `""`. -/
def headerGet (h : Header) (key : String) : String :=
  match h.find? (fun e => e.1 = canonicalHeaderKey key) with
  | some (_, v :: _) => v
  | _ => ""

/-- Embeds Go `Header.Add`: appends a value to the canonical key's list. -/
def headerAdd (h : Header) (key val : String) : Header :=
  let ck := canonicalHeaderKey key
  if h.any (fun e => e.1 = ck) then
    h.map (fun e => if e.1 = ck then (e.1, e.2 ++ [val]) else e)
  else
    h ++ [(ck, [val])]

/-- Embeds Go `Header.Set`: replaces the canonical key's list by `[val]`. -/
def headerSet (h : Header) (key val : String) : Header :=
  let ck := canonicalHeaderKey key
  if h.any (fun e => e.1 = ck) then
    h.map (fun e => if e.1 = ck then (e.1, [val]) else e)
  else
    h ++ [(ck, [val])]

/-- Embeds `isHopByHop` (proxy.go): membership of the canonicalized key in
the fixed hop-by-hop set. -/
def isHopByHop (header : String) : Bool :=
  let ck := canonicalHeaderKey header
  ck = "Connection" || ck = "Keep-Alive" || ck = "Proxy-Authenticate" ||
  ck = "Proxy-Authorization" || ck = "Te" || ck = "Trailers" ||
  ck = "Transfer-Encoding" || ck = "Upgrade"

/-! ## The proxy request pipeline (proxy.go `handleRequest`) -/

/-- An inbound HTTP request as `handleRequest` observes it: method, URL
path, raw query, and the parsed header map. Go stores the `Host` header
separately from `r.Header`, so it does not appear here. -/
structure Request where
  method : String
  path : String
  rawQuery : String
  headers : Header
deriving Repr, DecidableEq

/-- Drops `pre` from the front of `cs`, or reports that `pre` is not a
prefix (structural helper for the embedding of `strings.TrimPrefix`). -/
def dropPre : List Char → List Char → Option (List Char)
  | [], cs => some cs
  | _ :: _, [] => none
  | p :: ps, c :: cs => if c = p then dropPre ps cs else none

/-- Embeds `strings.TrimPrefix(s, "Bearer ")` as used in `handleRequest`: drops
the scheme prefix when present, returns the string unchanged otherwise. -/
def trimBearer (s : String) : String :=
  match dropPre "Bearer ".toList s.toList with
  | some rest => rest.asString
  | none => s

/-- Token extraction of `handleRequest` (proxy.go lines 75-83):
`Authorization` (with `Bearer ` stripped) first, `x-api-key` only when the
former is absent or strips to empty. -/
def extractToken (r : Request) : String :=
  let authHeader := headerGet r.headers "Authorization"
  let token := if authHeader ≠ "" then trimBearer authHeader else ""
  if token = "" then headerGet r.headers "x-api-key" else token

/-- Modelled from the spec: the token-extraction order claim C3 asserts
(API-key header primary, bearer header as fallback). This definition
follows the spec's words, to be compared with `extractToken`, which is the
embedding of the source. -/
def extractTokenClaimed (r : Request) : String :=
  let k := headerGet r.headers "x-api-key"
  if k ≠ "" then k else trimBearer (headerGet r.headers "Authorization")

/-- The upstream request `handleRequest` constructs and issues. -/
structure UpstreamRequest where
  method : String
  url : String
  headers : Header
deriving Repr, DecidableEq

/-- Outcome of the authentication-and-forwarding phase of `handleRequest`.
`forwarded` carries the fully constructed upstream request: an
`unauthorized` outcome means no upstream request is ever constructed or
issued. `skipped` is the early return for the health/status paths.
(`http.NewRequestWithContext` cannot fail for a method and path obtained
from a wire-parsed inbound request, so the 500 branch has no inhabitant in
this model.) -/
inductive ProxyResult where
  | skipped : ProxyResult
  | unauthorized (status : Nat) (body : String) : ProxyResult
  | forwarded (req : UpstreamRequest) (agentName : String) : ProxyResult
deriving Repr, DecidableEq

/-- The 401 body for a request carrying no token (proxy.go line 86). -/
def missingKeyBody : String :=
  "\x7b\"error\": \x7b\"type\": \"authentication_error\", \"message\": \"Missing API key\"\x7d\x7d"

/-- The 401 body for an unknown, expired or malformed token (proxy.go
line 94). -/
def invalidTokenBody : String :=
  "\x7b\"error\": \x7b\"type\": \"authentication_error\", \"message\": \"Invalid or revoked token\"\x7d\x7d"

/-- The header-copy loop of `handleRequest` (proxy.go lines 114-121): every
inbound header is added to the accumulator unless it is hop-by-hop or one
of the two auth-carrying headers. -/
def copyHeaders (hs : Header) (acc : Header) : Header :=
  hs.foldl (fun acc e =>
    if isHopByHop e.1 || e.1 = "Authorization" || e.1 = "X-Api-Key" then acc
    else e.2.foldl (fun a v => headerAdd a e.1 v) acc) acc

/-- Upstream-request construction of `handleRequest` (proxy.go lines
101-129): upstream URL from the base, path and query; the header-copy
loop; the real API key; the default `anthropic-version` injection. -/
def buildUpstream (r : Request) (apiKey : String) : UpstreamRequest :=
  let url := "https://api.anthropic.com" ++ r.path ++
    (if r.rawQuery ≠ "" then "?" ++ r.rawQuery else "")
  let h1 := copyHeaders r.headers []
  let h2 := headerSet h1 "x-api-key" apiKey
  let h3 := if headerGet h2 "anthropic-version" = "" then
      headerSet h2 "anthropic-version" "2023-06-01"
    else h2
  ⟨r.method, url, h3⟩

/-- Embeds `handleRequest` (proxy.go lines 69-141) up to the upstream call:
path guard, token extraction, authentication against the store, and
construction of the outbound upstream request. -/
def handleRequest (r : Request) (store : TokenStore) (now : Int)
    (apiKey : String) : ProxyResult :=
  if r.path = "/health" ∨ r.path = "/_creddy/status" then .skipped
  else
    let token := extractToken r
    if token = "" then .unauthorized 401 missingKeyBody
    else
      match TokenStore.Get store now token with
      | none => .unauthorized 401 invalidTokenBody
      | some info => .forwarded (buildUpstream r apiKey) info.agentName

/-! ## Streaming relay (proxy.go `handleStreaming`) -/

/-- One client-visible action of the relay loop. -/
inductive RelayEvent where
  | write (data : List Nat) : RelayEvent
  | flush : RelayEvent
deriving Repr, DecidableEq

/-- Why the relay loop returned. -/
inductive StopReason where
  | readDone : StopReason
  | writeFailed : StopReason
deriving Repr, DecidableEq

/-- Termination measure for the relay loop: total bytes still buffered plus
one per pending delivery. -/
def chunkWeight (l : List (List Nat)) : Nat :=
  (l.map (fun d => d.length + 1)).sum

theorem chunkWeight_cons (d : List Nat) (rest : List (List Nat)) :
    chunkWeight (d :: rest) = d.length + 1 + chunkWeight rest := by
  simp [chunkWeight]

/-- Embeds the read/write/flush loop of `handleStreaming` (proxy.go lines
181-198). The upstream body is modelled as the list of byte deliveries the
transport makes available to successive `Read` calls into the 4096-byte
buffer: a delivery longer than the buffer fills it and the remainder is
returned by the next `Read`. `wfail i` tells whether the `i`-th
`w.Write` fails (client disconnect). The result is the ordered trace of
successful writes and flushes, and the loop's termination reason: upstream
EOF / read error (`readDone`, reached when the deliveries are exhausted)
or a failed client write (`writeFailed`). -/
def handleStreamingLoop (wfail : Nat → Bool) :
    List (List Nat) → Nat → List RelayEvent × StopReason
  | [], _ => ([], .readDone)
  | d :: rest, i =>
    if h : 4096 < d.length then
      if wfail i then ([], .writeFailed)
      else
        let out := handleStreamingLoop wfail (d.drop 4096 :: rest) (i + 1)
        (.write (d.take 4096) :: .flush :: out.1, out.2)
    else
      if d.isEmpty then handleStreamingLoop wfail rest i
      else if wfail i then ([], .writeFailed)
      else
        let out := handleStreamingLoop wfail rest (i + 1)
        (.write d :: .flush :: out.1, out.2)
termination_by l _ => chunkWeight l
decreasing_by
  · simp only [chunkWeight_cons, List.length_drop]; omega
  · simp only [chunkWeight_cons]; omega
  · simp only [chunkWeight_cons]; omega

/-- The chunk sequence the loop writes when the client never fails: each
delivery cut into buffer-sized pieces, empty reads skipped. -/
def relayChunks : List (List Nat) → List (List Nat)
  | [] => []
  | d :: rest =>
    if _h : 4096 < d.length then d.take 4096 :: relayChunks (d.drop 4096 :: rest)
    else if d.isEmpty then relayChunks rest
    else d :: relayChunks rest
termination_by l => chunkWeight l
decreasing_by
  · simp only [chunkWeight_cons, List.length_drop]; omega
  · simp only [chunkWeight_cons]; omega
  · simp only [chunkWeight_cons]; omega

/-- The bytes a relay trace delivers to the client, in order. -/
def writtenBytes (evs : List RelayEvent) : List Nat :=
  evs.flatMap (fun e => match e with | .write c => c | .flush => [])

/-- Embeds `strings.Contains` as used for the event-stream check. -/
def strContains (s sub : String) : Bool :=
  (s.splitOn sub).length ≠ 1

/-- The streaming dispatch of `handleRequest` (proxy.go lines 155-163). -/
def isStreamingResponse (contentType : String) : Bool :=
  strContains contentType "text/event-stream"

/-! ## Standalone token issuance (`handleIssueToken`, standalone proxy) -/

/-- Nanoseconds of one hour (`time.Hour`). -/
def hourNs : Int := 3600 * 1000000000

/-- Nanoseconds of 24 hours: the TTL cap of `handleIssueToken`. -/
def dayNs : Int := 24 * hourNs

/-- Outcome of `handleIssueToken`. `issued` carries the JSON response
fields: the token, the `expires_at` instant, and the effective ttl. -/
inductive IssueResult where
  | methodNotAllowed (status : Nat) : IssueResult
  | tokenGenFailed (status : Nat) : IssueResult
  | issued (status : Nat) (token : String) (expiresAt : Int) (ttl : Int) :
      IssueResult
deriving Repr, DecidableEq

/-- Embeds `handleIssueToken` (standalone proxy source): POST-only guard,
body decode with defaults on error, `time.ParseDuration` with a 1h
fallback, the 24h cap, token generation, store insert, and the JSON
response. `body` is the decoded `{ttl, agent_name}` pair (`none` on a JSON
decode error), `parsedTTL` the result of `time.ParseDuration` on the
body's ttl string, and `genTok` the result of `generateToken()` (`none`
on a randomness failure). -/
def handleIssueToken (store : TokenStore) (now : Int) (method : String)
    (body : Option (String × String)) (parsedTTL : Option Int)
    (genTok : Option String) : TokenStore × IssueResult :=
  if method ≠ "POST" then (store, .methodNotAllowed 405)
  else
    let agentName := match body with
      | none => "anonymous"
      | some p => p.2
    let ttl1 : Int := match body, parsedTTL with
      | none, _ => hourNs          -- decode error: TTL defaults to "1h"
      | some _, none => hourNs     -- ParseDuration error: 1h fallback
      | some _, some d => d
    let ttl := if ttl1 > dayNs then dayNs else ttl1
    match genTok with
    | none => (store, .tokenGenFailed 500)
    | some token =>
      let expiresAt := now + ttl
      let store2 := TokenStore.Add store token
        { agentID := "", agentName := agentName, scope := "anthropic",
          expiresAt := expiresAt, createdAt := now }
      (store2, .issued 200 token expiresAt ttl)

/-! ## Store lemmas and claim theorems C2, C6, C7, C10 -/

theorem cleanupLoop_kept (now : Int) (s : TokenStore) :
    (TokenStore.cleanupLoop now s).1 =
      s.filter (fun e => decide (now ≤ e.2.expiresAt)) := by
  induction s with
  | nil => rfl
  | cons e rest ih =>
    simp only [TokenStore.cleanupLoop, List.filter_cons]
    by_cases h : e.2.expiresAt < now
    · simp [h, not_le.mpr h, ih]
    · simp [h, not_lt.mp h, ih]

theorem cleanupLoop_count (now : Int) (s : TokenStore) :
    (TokenStore.cleanupLoop now s).2 =
      (s.filter (fun e => decide (e.2.expiresAt < now))).length := by
  induction s with
  | nil => rfl
  | cons e rest ih =>
    simp only [TokenStore.cleanupLoop, List.filter_cons]
    by_cases h : e.2.expiresAt < now
    · simp [h, ih]
    · simp [h, ih]

/-- C6: `Cleanup()` deletes exactly the set of entries whose expiry has
passed relative to the single scan-time instant `now` (Go takes
`now := time.Now()` once before the loop), leaves every other entry
untouched (the surviving list is exactly the original list restricted to
unexpired entries, order and contents intact), and returns the number of
entries deleted; when zero entries are expired it returns 0 and the map is
unchanged. -/
theorem C6_cleanup_exact (s : TokenStore) (now : Int) :
    (TokenStore.Cleanup s now).1 =
      s.filter (fun e => decide (now ≤ e.2.expiresAt)) ∧
    (TokenStore.Cleanup s now).2 =
      (s.filter (fun e => decide (e.2.expiresAt < now))).length ∧
    (∀ e : String × TokenInfo,
      e ∈ (TokenStore.Cleanup s now).1 ↔ e ∈ s ∧ now ≤ e.2.expiresAt) ∧
    (TokenStore.Cleanup s now).1.length + (TokenStore.Cleanup s now).2 =
      s.length ∧
    ((∀ e ∈ s, ¬ e.2.expiresAt < now) → TokenStore.Cleanup s now = (s, 0)) := by
  refine ⟨cleanupLoop_kept now s, cleanupLoop_count now s, ?_, ?_, ?_⟩
  · intro e
    rw [TokenStore.Cleanup, cleanupLoop_kept]
    simp [List.mem_filter]
  · rw [TokenStore.Cleanup, cleanupLoop_kept, cleanupLoop_count]
    induction s with
    | nil => rfl
    | cons e rest ih =>
      simp only [List.filter_cons]
      by_cases h : e.2.expiresAt < now
      · simp [h, not_le.mpr h]; omega
      · simp [h, not_lt.mp h]; omega
  · intro h
    have h1 : TokenStore.cleanupLoop now s =
        ((TokenStore.cleanupLoop now s).1, (TokenStore.cleanupLoop now s).2) := rfl
    rw [TokenStore.Cleanup, h1, cleanupLoop_kept, cleanupLoop_count]
    have hf : s.filter (fun e => decide (now ≤ e.2.expiresAt)) = s :=
      List.filter_eq_self.mpr (fun e he => by
        simpa using not_lt.mp (h e he))
    have hg : s.filter (fun e => decide (e.2.expiresAt < now)) = [] :=
      List.filter_eq_nil_iff.mpr (fun e he => by simpa using h e he)
    rw [hf, hg]
    rfl

/-- C6 witness: a store with one expired and one live entry at scan time
10, and the no-expired case. -/
theorem C6_cleanup_exact_witness :
    TokenStore.Cleanup
      [("crd_a", ⟨"i", "n", "anthropic", 5, 0⟩),
       ("crd_b", ⟨"i", "n", "anthropic", 50, 0⟩)] 10 =
      ([("crd_b", ⟨"i", "n", "anthropic", 50, 0⟩)], 1) ∧
    TokenStore.Cleanup [("crd_b", ⟨"i", "n", "anthropic", 50, 0⟩)] 10 =
      ([("crd_b", ⟨"i", "n", "anthropic", 50, 0⟩)], 0) := by
  constructor
  · have h := C6_cleanup_exact
      [("crd_a", ⟨"i", "n", "anthropic", 5, 0⟩),
       ("crd_b", ⟨"i", "n", "anthropic", 50, 0⟩)] 10
    have h1 := h.1
    have h2 := h.2.1
    simp only [List.filter] at h1 h2
    norm_num at h1 h2
    exact Prod.ext h1 h2
  · exact (C6_cleanup_exact [("crd_b", ⟨"i", "n", "anthropic", 50, 0⟩)] 10).2.2.2.2
      (by decide)

/-- C2 counterexample input: a record whose expiry is exactly the current
instant. -/
def boundaryInfo : TokenInfo := ⟨"a1", "agent", "anthropic", 5, 0⟩

/-- C2 counterexample: the claim states a record is live iff the current
time is strictly before its expiry, so at `now = expiresAt` the lookup
should report not-found. The code's check is `time.Now().After(ExpiresAt)`,
which is false at equality, so `Get` still returns the record: at the
boundary instant the claim's iff fails. -/
theorem C2_counterexample :
    TokenStore.Get [("crd_a", boundaryInfo)] 5 "crd_a" = some boundaryInfo ∧
    ¬ ((5 : Int) < boundaryInfo.expiresAt) := by
  constructor
  · rfl
  · decide

/-- C2 (amended): `Get` returns not-found iff the token is absent or its
expiry is strictly before the current time (a record is live iff the
current time is at or before — not strictly before — its expiry); for a
present record, `Get` returns it while `now ≤ expiresAt` and returns
not-found as soon as `expiresAt < now`, even though the record still
physically resides in the map (no `Cleanup` involved: `Get` never
mutates). -/
theorem C2_get_lazy_expiry (s : TokenStore) (t : String) (now : Int) :
    (TokenStore.Get s now t = none ↔
      TokenStore.lookup s t = none ∨
      ∃ info, TokenStore.lookup s t = some info ∧ info.expiresAt < now) ∧
    (∀ info, TokenStore.lookup s t = some info →
      (now ≤ info.expiresAt → TokenStore.Get s now t = some info) ∧
      (info.expiresAt < now →
        TokenStore.Get s now t = none ∧
        TokenStore.lookup s t = some info)) := by
  constructor
  · rw [TokenStore.Get]
    cases h : TokenStore.lookup s t with
    | none => simp [h]
    | some info =>
      by_cases hlt : info.expiresAt < now
      · simp [h, hlt]
      · simp [h, hlt]
  · intro info h
    constructor
    · intro hle
      rw [TokenStore.Get, h]
      simp [not_lt.mpr hle]
    · intro hlt
      rw [TokenStore.Get, h]
      simp [hlt, h]

/-- C2 witness: a record expiring at 100 is returned at `now = 40` and
invisible at `now = 140` while still residing in the map. -/
theorem C2_get_lazy_expiry_witness :
    TokenStore.Get [("crd_b", ⟨"a1", "agent", "anthropic", 100, 0⟩)] 40
      "crd_b" = some ⟨"a1", "agent", "anthropic", 100, 0⟩ ∧
    TokenStore.Get [("crd_b", ⟨"a1", "agent", "anthropic", 100, 0⟩)] 140
      "crd_b" = none ∧
    TokenStore.lookup [("crd_b", ⟨"a1", "agent", "anthropic", 100, 0⟩)]
      "crd_b" = some ⟨"a1", "agent", "anthropic", 100, 0⟩ := by
  have hl : TokenStore.lookup
      [("crd_b", ⟨"a1", "agent", "anthropic", 100, 0⟩)] "crd_b" =
      some ⟨"a1", "agent", "anthropic", 100, 0⟩ := rfl
  have h1 := ((C2_get_lazy_expiry
      [("crd_b", ⟨"a1", "agent", "anthropic", 100, 0⟩)] "crd_b" 40).2
      _ hl).1 (by decide)
  have h2 := ((C2_get_lazy_expiry
      [("crd_b", ⟨"a1", "agent", "anthropic", 100, 0⟩)] "crd_b" 140).2
      _ hl).2 (by decide)
  exact ⟨h1, h2.1, h2.2⟩

theorem lookup_remove_self (s : TokenStore) (t : String) :
    TokenStore.lookup (TokenStore.Remove s t) t = none := by
  rw [TokenStore.lookup, TokenStore.Remove]
  have : (s.filter (fun e => e.1 ≠ t)).find? (fun e => e.1 = t) = none := by
    rw [List.find?_eq_none]
    intro e he
    have := (List.mem_filter.mp he).2
    simpa using this
  simp [this]

theorem remove_of_absent (s : TokenStore) (t : String)
    (h : TokenStore.lookup s t = none) : TokenStore.Remove s t = s := by
  rw [TokenStore.Remove]
  rw [TokenStore.lookup, Option.map_eq_none', List.find?_eq_none] at h
  exact List.filter_eq_self.mpr (fun e he => by simpa using h e he)

/-- C7: `Remove` and `RevokeCredential` always succeed (the Go error value
is always nil): `Remove` deletes the entry if present, is a no-op if
absent, and is idempotent — removing the same token twice leaves the same
final state as removing it once. -/
theorem C7_revoke_idempotent (s : TokenStore) (t : String) :
    (RevokeCredential s t).2 = none ∧
    (RevokeCredential s t).1 = TokenStore.Remove s t ∧
    TokenStore.lookup (TokenStore.Remove s t) t = none ∧
    TokenStore.Remove (TokenStore.Remove s t) t = TokenStore.Remove s t ∧
    (TokenStore.lookup s t = none → TokenStore.Remove s t = s) := by
  refine ⟨rfl, rfl, lookup_remove_self s t, ?_, remove_of_absent s t⟩
  exact remove_of_absent _ t (lookup_remove_self s t)

/-- C7 witness: double revocation of `"crd_abc"` on a concrete store. -/
theorem C7_revoke_idempotent_witness :
    (RevokeCredential [("crd_abc", ⟨"a1", "agent", "anthropic", 100, 0⟩)]
      "crd_abc").2 = none ∧
    TokenStore.Remove (TokenStore.Remove
      [("crd_abc", ⟨"a1", "agent", "anthropic", 100, 0⟩)] "crd_abc")
      "crd_abc" = TokenStore.Remove
      [("crd_abc", ⟨"a1", "agent", "anthropic", 100, 0⟩)] "crd_abc" ∧
    TokenStore.Remove ([] : TokenStore) "crd_abc" = [] := by
  refine ⟨(C7_revoke_idempotent _ "crd_abc").1,
    (C7_revoke_idempotent
      [("crd_abc", ⟨"a1", "agent", "anthropic", 100, 0⟩)] "crd_abc").2.2.2.1,
    (C7_revoke_idempotent [] "crd_abc").2.2.2.2 rfl⟩

/-- Any request whose extracted token fails the store check is never
forwarded: `handleRequest` cannot return `forwarded` unless
`TokenStore.Get` succeeds on the extracted token. -/
theorem handleRequest_not_forwarded (r : Request) (s : TokenStore)
    (now : Int) (apiKey : String)
    (h : TokenStore.Get s now (extractToken r) = none) :
    ∀ (u : UpstreamRequest) (a : String),
      handleRequest r s now apiKey ≠ .forwarded u a := by
  intro u a
  rw [handleRequest]
  split
  · intro hc; cases hc
  · by_cases ht : extractToken r = ""
    · simp [ht]
    · simp [ht, h]

/-- C10: a stored record carrying the zero-value expiry timestamp (the Go
zero `time.Time`, instant 0 in this embedding) is invisible to `Get` at
every instant after the zero instant — it behaves as already expired, not
as never-expiring — and consequently a request bearing such a token is
never forwarded to the upstream, whatever its other headers. -/
theorem C10_zero_expiry (s : TokenStore) (t : String) (info : TokenInfo)
    (now : Int) (hl : TokenStore.lookup s t = some info)
    (hz : info.expiresAt = 0) (hnow : 0 < now) :
    TokenStore.Get s now t = none ∧
    ∀ (r : Request) (apiKey : String) (u : UpstreamRequest) (a : String),
      extractToken r = t →
      handleRequest r s now apiKey ≠ .forwarded u a := by
  have hg : TokenStore.Get s now t = none := by
    rw [TokenStore.Get, hl]
    simp [hz, hnow]
  refine ⟨hg, ?_⟩
  intro r apiKey u a he
  exact handleRequest_not_forwarded r s now apiKey (he ▸ hg) u a

/-- C10 witness: a record with zero expiry at instant 1, and a concrete
request carrying that token via `x-api-key`. -/
theorem C10_zero_expiry_witness :
    TokenStore.Get [("crd_z", ⟨"a1", "agent", "anthropic", 0, 0⟩)] 1
      "crd_z" = none ∧
    handleRequest ⟨"POST", "/v1/messages", "", [("X-Api-Key", ["crd_z"])]⟩
      [("crd_z", ⟨"a1", "agent", "anthropic", 0, 0⟩)] 1 "sk-real" ≠
      .forwarded ⟨"POST", "https://api.anthropic.com/v1/messages",
        [("X-Api-Key", ["sk-real"]),
         ("Anthropic-Version", ["2023-06-01"])]⟩ "agent" := by
  have h := C10_zero_expiry [("crd_z", ⟨"a1", "agent", "anthropic", 0, 0⟩)]
    "crd_z" ⟨"a1", "agent", "anthropic", 0, 0⟩ 1 rfl rfl (by decide)
  exact ⟨h.1, h.2 ⟨"POST", "/v1/messages", "", [("X-Api-Key", ["crd_z"])]⟩
    "sk-real" _ _ (by decide)⟩

/-! ## Proxy authentication claims C5, C4, C3 -/

theorem handleRequest_no_token (r : Request) (s : TokenStore) (now : Int)
    (apiKey : String) (h1 : r.path ≠ "/health")
    (h2 : r.path ≠ "/_creddy/status") (h : extractToken r = "") :
    handleRequest r s now apiKey = .unauthorized 401 missingKeyBody := by
  rw [handleRequest]
  rw [if_neg (by simp [h1, h2])]
  simp [h]

theorem handleRequest_bad_token (r : Request) (s : TokenStore) (now : Int)
    (apiKey : String) (h1 : r.path ≠ "/health")
    (h2 : r.path ≠ "/_creddy/status") (ht : extractToken r ≠ "")
    (h : TokenStore.Get s now (extractToken r) = none) :
    handleRequest r s now apiKey = .unauthorized 401 invalidTokenBody := by
  rw [handleRequest]
  rw [if_neg (by simp [h1, h2])]
  simp [ht, h]

/-- C5: a forward-candidate request from which neither the API-key header
nor the bearer-authorization header yields a non-empty token is answered
401 with the missing-key body, and the upstream is never contacted: the
result is not `forwarded`, so no upstream request is even constructed —
authentication strictly precedes any upstream contact. -/
theorem C5_no_auth_401 (r : Request) (s : TokenStore) (now : Int)
    (apiKey : String) (h1 : r.path ≠ "/health")
    (h2 : r.path ≠ "/_creddy/status") (h : extractToken r = "") :
    handleRequest r s now apiKey = .unauthorized 401 missingKeyBody ∧
    ∀ (u : UpstreamRequest) (a : String),
      handleRequest r s now apiKey ≠ .forwarded u a := by
  refine ⟨handleRequest_no_token r s now apiKey h1 h2 h, ?_⟩
  intro u a hc
  rw [handleRequest_no_token r s now apiKey h1 h2 h] at hc
  cases hc

/-- C5 witness: a bare request with no headers at all. -/
theorem C5_no_auth_401_witness :
    handleRequest ⟨"POST", "/v1/messages", "", []⟩
      [("crd_t", ⟨"a1", "agent", "anthropic", 100, 0⟩)] 50 "sk-real" =
      .unauthorized 401 missingKeyBody := by
  exact (C5_no_auth_401 ⟨"POST", "/v1/messages", "", []⟩
    [("crd_t", ⟨"a1", "agent", "anthropic", 100, 0⟩)] 50 "sk-real"
    (by decide) (by decide) (by decide)).1

/-- C4: a request bearing a token that exists in the store but is expired
and a request bearing a token never added to the store (or malformed) get
exactly the same response: HTTP 401 with the same body — the response does
not distinguish never-existed from expired from malformed. -/
theorem C4_expired_eq_unknown (r1 r2 : Request) (s : TokenStore) (now : Int)
    (apiKey : String) (t1 t2 : String) (info1 : TokenInfo)
    (hp1 : r1.path ≠ "/health") (hq1 : r1.path ≠ "/_creddy/status")
    (hp2 : r2.path ≠ "/health") (hq2 : r2.path ≠ "/_creddy/status")
    (he1 : extractToken r1 = t1) (hn1 : t1 ≠ "")
    (he2 : extractToken r2 = t2) (hn2 : t2 ≠ "")
    (hexp : TokenStore.lookup s t1 = some info1)
    (hlt : info1.expiresAt < now)
    (habs : TokenStore.lookup s t2 = none) :
    handleRequest r1 s now apiKey = .unauthorized 401 invalidTokenBody ∧
    handleRequest r2 s now apiKey = .unauthorized 401 invalidTokenBody ∧
    handleRequest r1 s now apiKey = handleRequest r2 s now apiKey := by
  have hg1 : TokenStore.Get s now t1 = none := by
    rw [TokenStore.Get, hexp]; simp [hlt]
  have hg2 : TokenStore.Get s now t2 = none := by
    rw [TokenStore.Get, habs]
  have o1 := handleRequest_bad_token r1 s now apiKey hp1 hq1
    (he1 ▸ hn1) (he1 ▸ hg1)
  have o2 := handleRequest_bad_token r2 s now apiKey hp2 hq2
    (he2 ▸ hn2) (he2 ▸ hg2)
  exact ⟨o1, o2, o1.trans o2.symm⟩

/-- C4 witness: an expired token `crd_old` (expiry 10, now 50) and a token
`crd_ghost` that was never added, both carried via `x-api-key`. -/
theorem C4_expired_eq_unknown_witness :
    handleRequest ⟨"POST", "/v1/messages", "", [("X-Api-Key", ["crd_old"])]⟩
      [("crd_old", ⟨"a1", "agent", "anthropic", 10, 0⟩)] 50 "sk-real" =
      .unauthorized 401 invalidTokenBody ∧
    handleRequest ⟨"POST", "/v1/messages", "",
        [("X-Api-Key", ["crd_ghost"])]⟩
      [("crd_old", ⟨"a1", "agent", "anthropic", 10, 0⟩)] 50 "sk-real" =
      .unauthorized 401 invalidTokenBody := by
  have h := C4_expired_eq_unknown
    ⟨"POST", "/v1/messages", "", [("X-Api-Key", ["crd_old"])]⟩
    ⟨"POST", "/v1/messages", "", [("X-Api-Key", ["crd_ghost"])]⟩
    [("crd_old", ⟨"a1", "agent", "anthropic", 10, 0⟩)] 50 "sk-real"
    "crd_old" "crd_ghost" ⟨"a1", "agent", "anthropic", 10, 0⟩
    (by decide) (by decide) (by decide) (by decide)
    (by decide) (by decide) (by decide) (by decide)
    rfl (by decide) rfl
  exact ⟨h.1, h.2.1⟩

/-- C3 counterexample input: a request carrying both auth headers with
different token values, of which only the `x-api-key` one is in the
store and live. -/
def rBothHeaders : Request :=
  ⟨"POST", "/v1/messages", "",
    [("Authorization", ["Bearer crd_auth"]), ("X-Api-Key", ["crd_key"])]⟩

/-- C3 counterexample store: only the `x-api-key` token is present (and
live at instant 50). -/
def sOnlyKey : TokenStore := [("crd_key", ⟨"a1", "agent", "anthropic", 100, 0⟩)]

/-- C3 counterexample: the claim says the API-key header is the primary
source and the bearer header only a fallback, so for a request carrying
both with different values the API-key value is the one authenticated.
The code does the opposite: it reads `Authorization` first and consults
`x-api-key` only when that is absent. Here `extractToken` returns the
bearer value, disagrees with the extractor the claim describes, and the
request is rejected 401 even though the `x-api-key` token is live in the
store. -/
theorem C3_counterexample :
    extractToken rBothHeaders = "crd_auth" ∧
    headerGet rBothHeaders.headers "x-api-key" = "crd_key" ∧
    extractTokenClaimed rBothHeaders = "crd_key" ∧
    extractToken rBothHeaders ≠ extractTokenClaimed rBothHeaders ∧
    TokenStore.Get sOnlyKey 50 "crd_key" =
      some ⟨"a1", "agent", "anthropic", 100, 0⟩ ∧
    handleRequest rBothHeaders sOnlyKey 50 "sk-real" =
      .unauthorized 401 invalidTokenBody := by
  refine ⟨rfl, rfl, rfl, by decide, rfl, ?_⟩
  exact handleRequest_bad_token rBothHeaders sOnlyKey 50 "sk-real"
    (by decide) (by decide) (by decide) rfl

/-- C3 (amended): the bearer-authorization header is the primary source of
the token — whenever it is present and yields a non-empty value after
stripping the `Bearer ` scheme prefix, that value is the one authenticated
against the store — and the API-key header (`x-api-key`) is consulted only
as a fallback, when the authorization header is absent or strips to the
empty string. -/
theorem C3_auth_header_primary (r : Request) :
    (trimBearer (headerGet r.headers "Authorization") ≠ "" →
      extractToken r = trimBearer (headerGet r.headers "Authorization")) ∧
    ((headerGet r.headers "Authorization" = "" ∨
      trimBearer (headerGet r.headers "Authorization") = "") →
      extractToken r = headerGet r.headers "x-api-key") := by
  constructor
  · intro hne
    have ha : headerGet r.headers "Authorization" ≠ "" := by
      intro h0
      exact hne (by rw [h0]; rfl)
    rw [extractToken]
    simp [ha, hne]
  · intro hc
    rw [extractToken]
    rcases hc with h0 | h0
    · simp [h0, trimBearer]
    · by_cases ha : headerGet r.headers "Authorization" = ""
      · simp [ha, trimBearer]
      · simp [ha, h0]

/-- C3 amended-claim witness: the two extraction regimes at concrete
requests — both headers present (bearer wins), authorization absent
(API-key fallback). -/
theorem C3_auth_header_primary_witness :
    extractToken rBothHeaders = "crd_auth" ∧
    extractToken ⟨"POST", "/v1/messages", "",
      [("X-Api-Key", ["crd_key"])]⟩ = "crd_key" := by
  refine ⟨?_, ?_⟩
  · have h := (C3_auth_header_primary rBothHeaders).1 (by decide)
    simpa using h
  · have h := (C3_auth_header_primary ⟨"POST", "/v1/messages", "",
      [("X-Api-Key", ["crd_key"])]⟩).2 (Or.inl (by decide))
    simpa using h

/-! ## Header-copy lemmas for claim C1 -/

/-- The copy-loop retention predicate: a header key survives the copy loop
iff it is neither hop-by-hop nor one of the two auth-carrying keys. -/
def keptKey (k : String) : Bool :=
  !(isHopByHop k || k = "Authorization" || k = "X-Api-Key")

theorem headerAdd_fresh (acc : Header) (k v : String)
    (hfresh : acc.any (fun e => e.1 = canonicalHeaderKey k) = false) :
    headerAdd acc k v = acc ++ [(canonicalHeaderKey k, [v])] := by
  rw [headerAdd]
  simp only [hfresh]
  rfl

theorem headerAdd_last (acc : Header) (k v : String) (ws : List String)
    (hk : canonicalHeaderKey k = k)
    (hfresh : acc.any (fun e => e.1 = k) = false) :
    headerAdd (acc ++ [(k, ws)]) k v = acc ++ [(k, ws ++ [v])] := by
  rw [headerAdd]
  simp only [hk]
  have hany : (acc ++ [(k, ws)]).any (fun e => e.1 = k) = true := by
    simp [List.any_append]
  rw [if_pos hany, List.map_append]
  congr 1
  · conv_rhs => rw [show acc = acc.map id from (List.map_id acc).symm]
    apply List.map_congr_left
    intro e he
    have hne : ¬ (e.1 = k) := by
      have := List.any_eq_false.mp hfresh e he
      simpa using this
    simp [hne]
  · simp

theorem addAll_from (k : String) (hk : canonicalHeaderKey k = k)
    (vs : List String) : ∀ (acc : Header) (ws : List String),
    acc.any (fun e => e.1 = k) = false →
    vs.foldl (fun a v => headerAdd a k v) (acc ++ [(k, ws)]) =
      acc ++ [(k, ws ++ vs)] := by
  induction vs with
  | nil => intro acc ws _; simp
  | cons v vs ih =>
    intro acc ws hfresh
    rw [List.foldl_cons, headerAdd_last acc k v ws hk hfresh, ih acc _ hfresh]
    simp

theorem addAll_fresh (k : String) (hk : canonicalHeaderKey k = k)
    (vs : List String) (acc : Header)
    (hfresh : acc.any (fun e => e.1 = k) = false) (hvs : vs ≠ []) :
    vs.foldl (fun a v => headerAdd a k v) acc = acc ++ [(k, vs)] := by
  cases vs with
  | nil => exact absurd rfl hvs
  | cons v vs =>
    rw [List.foldl_cons, headerAdd_fresh acc k v (by rw [hk]; exact hfresh),
      hk, addAll_from k hk vs acc [v] hfresh]
    simp

/-- The header-copy loop, on a parsed request's header map (canonical,
duplicate-free keys; no empty value lists), produces exactly the inbound
headers restricted to the kept keys, appended to the accumulator. -/
theorem copyHeaders_eq (hs : Header) : ∀ acc : Header,
    (∀ e ∈ hs, canonicalHeaderKey e.1 = e.1) →
    (hs.map (fun e => e.1)).Nodup →
    (∀ e ∈ hs, e.2 ≠ []) →
    (∀ e ∈ hs, acc.any (fun a => a.1 = e.1) = false) →
    copyHeaders hs acc = acc ++ hs.filter (fun e => keptKey e.1) := by
  induction hs with
  | nil => intro acc _ _ _ _; simp [copyHeaders]
  | cons e rest ih =>
    intro acc hcanon hnodup hvals hfresh
    rw [List.map_cons, List.nodup_cons] at hnodup
    rw [copyHeaders, List.foldl_cons]
    by_cases hex : (isHopByHop e.1 || e.1 = "Authorization" ||
        e.1 = "X-Api-Key") = true
    · rw [if_pos hex]
      rw [show rest.foldl _ acc = copyHeaders rest acc from rfl]
      rw [ih acc (fun x hx => hcanon x (List.mem_cons_of_mem e hx))
        hnodup.2
        (fun x hx => hvals x (List.mem_cons_of_mem e hx))
        (fun x hx => hfresh x (List.mem_cons_of_mem e hx))]
      have hkept : keptKey e.1 = false := by
        rw [keptKey, hex]; rfl
      simp [List.filter_cons, hkept]
    · rw [if_neg hex]
      have hkept : keptKey e.1 = true := by
        rw [keptKey, Bool.not_eq_true'] at *
        simpa using hex
      have hcek : canonicalHeaderKey e.1 = e.1 := hcanon e (by simp)
      have hfr : acc.any (fun a => a.1 = e.1) = false := hfresh e (by simp)
      have hv : e.2 ≠ [] := hvals e (by simp)
      rw [addAll_fresh e.1 hcek e.2 acc hfr hv]
      rw [show rest.foldl _ (acc ++ [(e.1, e.2)]) =
        copyHeaders rest (acc ++ [(e.1, e.2)]) from rfl]
      have hnotmem : e.1 ∉ rest.map (fun x => x.1) := hnodup.1
      rw [ih (acc ++ [(e.1, e.2)])
        (fun x hx => hcanon x (List.mem_cons_of_mem e hx))
        hnodup.2
        (fun x hx => hvals x (List.mem_cons_of_mem e hx))
        ?_]
      · simp [List.filter_cons, hkept]
      · intro x hx
        rw [List.any_append]
        have h1 := hfresh x (List.mem_cons_of_mem e hx)
        have h2 : ¬ (e.1 = x.1) := by
          intro hc
          exact hnotmem (hc ▸ List.mem_map_of_mem (fun y => y.1) hx)
        simp [h1, h2]

theorem headerSet_fresh (h : Header) (k v : String)
    (hfresh : h.any (fun e => e.1 = canonicalHeaderKey k) = false) :
    headerSet h k v = h ++ [(canonicalHeaderKey k, [v])] := by
  rw [headerSet]
  simp only [hfresh]
  rfl

theorem headerGet_append_fresh (h t : Header) (k : String)
    (hfresh : h.any (fun e => e.1 = canonicalHeaderKey k) = false) :
    headerGet (h ++ t) k = headerGet t k := by
  rw [headerGet, headerGet, List.find?_append]
  have : h.find? (fun e => e.1 = canonicalHeaderKey k) = none := by
    rw [List.find?_eq_none]
    intro e he
    simpa using List.any_eq_false.mp hfresh e he
  rw [this, Option.none_or]

theorem find?_set_map (ck v : String) : ∀ h : Header,
    h.any (fun e => e.1 = ck) = true →
    (h.map (fun e => if e.1 = ck then (e.1, [v]) else e)).find?
      (fun e => e.1 = ck) = some (ck, [v]) := by
  intro h
  induction h with
  | nil => intro hc; cases hc
  | cons e rest ih =>
    intro hany
    by_cases he : e.1 = ck
    · simp [he]
    · have hrest : rest.any (fun e => e.1 = ck) = true := by
        rcases List.any_eq_true.mp hany with ⟨x, hx, hpx⟩
        rcases List.mem_cons.mp hx with h1 | h1
        · exact absurd (by simpa [h1] using hpx) he
        · exact List.any_eq_true.mpr ⟨x, h1, hpx⟩
      simp [he, ih hrest]

theorem headerGet_headerSet_self (h : Header) (k v : String) :
    headerGet (headerSet h k v) k = v := by
  by_cases hany : h.any (fun e => e.1 = canonicalHeaderKey k) = true
  · rw [headerSet]
    simp only [hany, if_pos]
    rw [headerGet, find?_set_map (canonicalHeaderKey k) v h hany]
  · rw [headerSet_fresh h k v (Bool.not_eq_true _ ▸ hany),
      headerGet_append_fresh h _ k (Bool.not_eq_true _ ▸ hany), headerGet]
    simp

theorem find?_set_map_ne (ck q v : String) (hne : q ≠ ck) : ∀ h : Header,
    (h.map (fun e => if e.1 = ck then (e.1, [v]) else e)).find?
      (fun e => e.1 = q) = h.find? (fun e => e.1 = q) := by
  intro h
  induction h with
  | nil => rfl
  | cons e rest ih =>
    rw [List.map_cons]
    by_cases he : e.1 = ck
    · have h2 : ¬ (e.1 = q) := fun hc => hne (hc.symm.trans he)
      rw [if_pos he,
        List.find?_cons_of_neg _ (by simpa using h2),
        List.find?_cons_of_neg _ (by simpa using h2), ih]
    · rw [if_neg he]
      by_cases hq : e.1 = q
      · rw [List.find?_cons_of_pos _ (by simpa using hq),
          List.find?_cons_of_pos _ (by simpa using hq)]
      · rw [List.find?_cons_of_neg _ (by simpa using hq),
          List.find?_cons_of_neg _ (by simpa using hq), ih]

theorem headerGet_headerSet_ne (h : Header) (k v q : String)
    (hne : canonicalHeaderKey q ≠ canonicalHeaderKey k) :
    headerGet (headerSet h k v) q = headerGet h q := by
  by_cases hany : h.any (fun e => e.1 = canonicalHeaderKey k) = true
  · rw [headerSet]
    simp only [hany, if_pos]
    rw [headerGet, headerGet,
      find?_set_map_ne (canonicalHeaderKey k) (canonicalHeaderKey q) v hne h]
  · rw [headerSet_fresh h k v (Bool.not_eq_true _ ▸ hany)]
    rw [headerGet, headerGet, List.find?_append]
    have h2 : ¬ (canonicalHeaderKey k = canonicalHeaderKey q) :=
      fun hc => hne hc.symm
    have : [(canonicalHeaderKey k, [v])].find?
        (fun e => e.1 = canonicalHeaderKey q) = none := by
      simp [h2]
    rw [this, Option.or_none]

theorem mem_headerSet_of_ne (h : Header) (k v : String)
    (x : String × List String) (hx : x ∈ h)
    (hne : x.1 ≠ canonicalHeaderKey k) : x ∈ headerSet h k v := by
  rw [headerSet]
  by_cases hany : h.any (fun e => e.1 = canonicalHeaderKey k) = true
  · simp only [hany, if_pos]
    have : (fun e : String × List String =>
        if e.1 = canonicalHeaderKey k then (e.1, [v]) else e) x = x := by
      simp [hne]
    exact this ▸ List.mem_map_of_mem _ hx
  · simp only [Bool.not_eq_true _ ▸ hany]
    simp [List.mem_append, hx]

theorem find?_filter_of_imp (l : Header)
    (p q : (String × List String) → Bool)
    (himp : ∀ e, q e = true → p e = true) :
    (l.filter p).find? q = l.find? q := by
  induction l with
  | nil => rfl
  | cons e rest ih =>
    rw [List.filter_cons]
    by_cases hq : q e = true
    · rw [if_pos (himp e hq), List.find?_cons, List.find?_cons, hq]
    · have hq' : q e = false := by simpa using hq
      by_cases hp : p e = true
      · rw [if_pos hp, List.find?_cons, List.find?_cons, hq', ih]
      · rw [if_neg hp, List.find?_cons, hq', ih]

theorem keptKey_true_of (k : String) (hhop : isHopByHop k = false)
    (h1 : k ≠ "Authorization") (h2 : k ≠ "X-Api-Key") : keptKey k = true := by
  rw [keptKey, hhop]
  simp [h1, h2]

theorem headerGet_filter_kept (hs : Header) :
    headerGet (hs.filter (fun e => keptKey e.1)) "anthropic-version" =
      headerGet hs "anthropic-version" := by
  rw [headerGet, headerGet, find?_filter_of_imp]
  intro e hq
  have hev : e.1 = "Anthropic-Version" := by
    have hc : canonicalHeaderKey "anthropic-version" = "Anthropic-Version" :=
      rfl
    have := of_decide_eq_true hq
    rwa [hc] at this
  rw [hev]
  decide

theorem filter_kept_no_key (hs : Header) (bad : String)
    (hbad : keptKey bad = false) :
    (hs.filter (fun e => keptKey e.1)).any (fun e => e.1 = bad) = false := by
  rw [List.any_eq_false]
  intro x hx
  have hk := (List.mem_filter.mp hx).2
  intro hc
  have hxb : x.1 = bad := by simpa using hc
  simp [hxb, hbad] at hk

/-- C1 (amended): for every authenticated, forwarded request (wire-parsed
header map: canonical, duplicate-free keys, nonempty value lists), the
outbound request's API-key header equals the configured real upstream
secret and never the inbound token; every inbound header is copied to the
outbound request except the hop-by-hop headers, the two auth-carrying
headers (`Authorization`, `X-Api-Key`), and an `anthropic-version` header
whose value is empty (which is overwritten with the default version); and
if the inbound request carried no (nonempty) `anthropic-version` header
the outbound request carries the default `2023-06-01`. -/
theorem C1_upstream_rewrite (r : Request) (s : TokenStore) (now : Int)
    (apiKey t : String) (info : TokenInfo)
    (hcanon : ∀ e ∈ r.headers, canonicalHeaderKey e.1 = e.1)
    (hnodup : (r.headers.map (fun e => e.1)).Nodup)
    (hvals : ∀ e ∈ r.headers, e.2 ≠ [])
    (hp1 : r.path ≠ "/health") (hp2 : r.path ≠ "/_creddy/status")
    (he : extractToken r = t) (hne : t ≠ "")
    (hget : TokenStore.Get s now t = some info) :
    handleRequest r s now apiKey =
      .forwarded (buildUpstream r apiKey) info.agentName ∧
    headerGet (buildUpstream r apiKey).headers "x-api-key" = apiKey ∧
    (t ≠ apiKey →
      headerGet (buildUpstream r apiKey).headers "x-api-key" ≠ t) ∧
    (∀ k vs, (k, vs) ∈ r.headers → isHopByHop k = false →
      k ≠ "Authorization" → k ≠ "X-Api-Key" →
      ¬(k = "Anthropic-Version" ∧
        headerGet r.headers "anthropic-version" = "") →
      (k, vs) ∈ (buildUpstream r apiKey).headers) ∧
    (headerGet r.headers "anthropic-version" = "" →
      headerGet (buildUpstream r apiKey).headers "anthropic-version" =
        "2023-06-01") := by
  have hckApi : canonicalHeaderKey "x-api-key" = "X-Api-Key" := rfl
  have hckVer : canonicalHeaderKey "anthropic-version" =
    "Anthropic-Version" := rfl
  have hcopy : copyHeaders r.headers [] =
      r.headers.filter (fun e => keptKey e.1) := by
    have := copyHeaders_eq r.headers [] hcanon hnodup hvals (fun e _ => rfl)
    simpa using this
  have hbu : (buildUpstream r apiKey).headers =
      (if headerGet (headerSet (r.headers.filter (fun e => keptKey e.1))
          "x-api-key" apiKey) "anthropic-version" = "" then
        headerSet (headerSet (r.headers.filter (fun e => keptKey e.1))
          "x-api-key" apiKey) "anthropic-version" "2023-06-01"
      else
        headerSet (r.headers.filter (fun e => keptKey e.1))
          "x-api-key" apiKey) := by
    simp only [buildUpstream, hcopy]
  have hverTransfer : headerGet (headerSet
      (r.headers.filter (fun e => keptKey e.1)) "x-api-key" apiKey)
      "anthropic-version" = headerGet r.headers "anthropic-version" := by
    rw [headerGet_headerSet_ne _ _ _ _ (by rw [hckApi, hckVer]; decide),
      headerGet_filter_kept]
  have hkey : headerGet (buildUpstream r apiKey).headers "x-api-key" =
      apiKey := by
    rw [hbu]
    by_cases hc : headerGet (headerSet
        (r.headers.filter (fun e => keptKey e.1)) "x-api-key" apiKey)
        "anthropic-version" = ""
    · rw [if_pos hc,
        headerGet_headerSet_ne _ _ _ _ (by rw [hckApi, hckVer]; decide),
        headerGet_headerSet_self]
    · rw [if_neg hc, headerGet_headerSet_self]
  have hfwd : handleRequest r s now apiKey =
      .forwarded (buildUpstream r apiKey) info.agentName := by
    rw [handleRequest, if_neg (by simp [hp1, hp2])]
    simp [he, hne, hget]
  refine ⟨hfwd, hkey, ?_, ?_, ?_⟩
  · intro hta
    rw [hkey]
    exact fun hc => hta hc.symm
  · intro k vs hmem hhop hka hkx hprov
    have hkept : keptKey k = true := keptKey_true_of k hhop hka hkx
    have hF : (k, vs) ∈ r.headers.filter (fun e => keptKey e.1) :=
      List.mem_filter.mpr ⟨hmem, hkept⟩
    have hFfresh : (r.headers.filter (fun e => keptKey e.1)).any
        (fun e => e.1 = canonicalHeaderKey "x-api-key") = false := by
      simp only [hckApi]
      exact filter_kept_no_key r.headers "X-Api-Key" (by decide)
    have h2eq : headerSet (r.headers.filter (fun e => keptKey e.1))
        "x-api-key" apiKey =
        r.headers.filter (fun e => keptKey e.1) ++
          [("X-Api-Key", [apiKey])] := by
      rw [headerSet_fresh _ _ _ hFfresh, hckApi]
    have h2mem : (k, vs) ∈ headerSet
        (r.headers.filter (fun e => keptKey e.1)) "x-api-key" apiKey := by
      rw [h2eq]
      exact List.mem_append_left _ hF
    rw [hbu]
    by_cases hc : headerGet (headerSet
        (r.headers.filter (fun e => keptKey e.1)) "x-api-key" apiKey)
        "anthropic-version" = ""
    · rw [if_pos hc]
      have hkver : k ≠ "Anthropic-Version" := by
        intro hk
        exact hprov ⟨hk, by rwa [hverTransfer] at hc⟩
      exact mem_headerSet_of_ne _ _ _ _ h2mem (by rwa [hckVer])
    · rw [if_neg hc]
      exact h2mem
  · intro hvempty
    rw [hbu, if_pos (by rwa [hverTransfer]), headerGet_headerSet_self]

/-- C1 witness request: a live token via `x-api-key`, a pass-through
header, and a hop-by-hop header. -/
def rC1w : Request :=
  ⟨"POST", "/v1/messages", "",
    [("X-Api-Key", ["crd_t"]), ("Content-Type", ["application/json"]),
     ("Connection", ["close"])]⟩

/-- C1 witness store: `crd_t` live at instant 50. -/
def sC1w : TokenStore := [("crd_t", ⟨"a1", "agent", "anthropic", 100, 0⟩)]

/-- C1 witness: at the concrete request the forwarded upstream request
carries the real key and the pass-through header. -/
theorem C1_upstream_rewrite_witness :
    handleRequest rC1w sC1w 50 "sk-real" =
      .forwarded (buildUpstream rC1w "sk-real") "agent" ∧
    headerGet (buildUpstream rC1w "sk-real").headers "x-api-key" =
      "sk-real" ∧
    ("Content-Type", ["application/json"]) ∈
      (buildUpstream rC1w "sk-real").headers := by
  have h := C1_upstream_rewrite rC1w sC1w 50 "sk-real" "crd_t"
    ⟨"a1", "agent", "anthropic", 100, 0⟩
    (by decide) (by decide) (by decide) (by decide) (by decide)
    (by decide) (by decide) rfl
  exact ⟨h.1, h.2.1, h.2.2.2.1 "Content-Type" ["application/json"]
    (by decide) (by decide) (by decide) (by decide) (by decide)⟩

/-- C1 counterexample request: a live token via `x-api-key` and an
`anthropic-version` header carrying the empty value. -/
def rC1cex : Request :=
  ⟨"POST", "/v1/messages", "",
    [("X-Api-Key", ["crd_t"]), ("Anthropic-Version", [""])]⟩

/-- C1 counterexample: the claim says every inbound header other than the
hop-by-hop and the two auth-carrying headers is copied to the outbound
upstream request. The `Anthropic-Version` header with the empty value
satisfies all three exclusions yet does not appear on the outbound
request: the code's `Get(anthropic-version) == ""` check treats it as
absent and overwrites it with the default version value. -/
theorem C1_counterexample :
    handleRequest rC1cex sC1w 50 "sk-real" =
      .forwarded ⟨"POST", "https://api.anthropic.com/v1/messages",
        [("Anthropic-Version", ["2023-06-01"]),
         ("X-Api-Key", ["sk-real"])]⟩ "agent" ∧
    ("Anthropic-Version", [""]) ∈ rC1cex.headers ∧
    isHopByHop "Anthropic-Version" = false ∧
    "Anthropic-Version" ≠ "Authorization" ∧
    "Anthropic-Version" ≠ "X-Api-Key" ∧
    ("Anthropic-Version", [""]) ∉
      (⟨"POST", "https://api.anthropic.com/v1/messages",
        [("Anthropic-Version", ["2023-06-01"]),
         ("X-Api-Key", ["sk-real"])]⟩ : UpstreamRequest).headers := by
  refine ⟨by decide, by decide, by decide, by decide, by decide, by decide⟩

/-! ## Token issuance claim C9 -/

theorem lookup_add_self (s : TokenStore) (t : String) (i : TokenInfo) :
    TokenStore.lookup (TokenStore.Add s t i) t = some i := by
  rw [TokenStore.Add, TokenStore.lookup,
    List.find?_cons_of_pos _ (by simp)]
  rfl

/-- Closed form of `handleIssueToken` on a POST with a decoded body and a
successful token generation. -/
theorem handleIssueToken_post (store : TokenStore) (now : Int)
    (ttlStr agentName : String) (parsedTTL : Option Int) (tok : String) :
    handleIssueToken store now "POST" (some (ttlStr, agentName))
      parsedTTL (some tok) =
      (TokenStore.Add store tok
        ⟨"", agentName, "anthropic",
          now + min (parsedTTL.getD hourNs) dayNs, now⟩,
       .issued 200 tok (now + min (parsedTTL.getD hourNs) dayNs)
         (min (parsedTTL.getD hourNs) dayNs)) := by
  rw [handleIssueToken.eq_def, if_neg (by simp)]
  have hval : (match (some (ttlStr, agentName) : Option (String × String)),
        parsedTTL with
      | none, _ => hourNs
      | some _, none => hourNs
      | some _, some d => d) = parsedTTL.getD hourNs := by
    cases parsedTTL <;> rfl
  have hmin : (if parsedTTL.getD hourNs > dayNs then dayNs
      else parsedTTL.getD hourNs) = min (parsedTTL.getD hourNs) dayNs := by
    rcases le_or_lt (parsedTTL.getD hourNs) dayNs with h | h
    · rw [if_neg (not_lt.mpr h), min_eq_left h]
    · rw [if_pos h, min_eq_right h.le]
  simp only [hval, hmin]

/-- C9: a POST to the token-issuance path with a decoded `{ttl, agent_name}`
body issues a token whose effective TTL is the parsed TTL clamped to at
most 24 hours (a request above 24h gets exactly 24h), responds with the
token, its expiry instant `now + ttl`, and the effective ttl, and the
returned store contains the corresponding record (stored before the
response is produced — the response and the store come from the same
result pair). -/
theorem C9_issue_ttl_clamp (store : TokenStore) (now : Int)
    (ttlStr agentName : String) (parsedTTL : Option Int) (tok : String) :
    (handleIssueToken store now "POST" (some (ttlStr, agentName))
        parsedTTL (some tok)).2 =
      .issued 200 tok (now + min (parsedTTL.getD hourNs) dayNs)
        (min (parsedTTL.getD hourNs) dayNs) ∧
    min (parsedTTL.getD hourNs) dayNs ≤ dayNs ∧
    (∀ d : Int, parsedTTL = some d → dayNs < d →
      min (parsedTTL.getD hourNs) dayNs = dayNs) ∧
    TokenStore.lookup (handleIssueToken store now "POST"
        (some (ttlStr, agentName)) parsedTTL (some tok)).1 tok =
      some ⟨"", agentName, "anthropic",
        now + min (parsedTTL.getD hourNs) dayNs, now⟩ := by
  refine ⟨by rw [handleIssueToken_post], min_le_right _ _, ?_, ?_⟩
  · intro d hd hgt
    rw [hd]
    exact min_eq_right (by simpa using hgt.le)
  · rw [handleIssueToken_post]
    exact lookup_add_self store tok _

/-- C9 witness: a 48h request at instant 1000 is clamped to a 24h expiry. -/
theorem C9_issue_ttl_clamp_witness :
    (handleIssueToken [] 1000 "POST" (some ("48h", "bob"))
        (some (48 * hourNs)) (some "crd_new")).2 =
      .issued 200 "crd_new" (1000 + dayNs) dayNs ∧
    TokenStore.lookup (handleIssueToken [] 1000 "POST"
        (some ("48h", "bob")) (some (48 * hourNs)) (some "crd_new")).1
      "crd_new" =
      some ⟨"", "bob", "anthropic", 1000 + dayNs, 1000⟩ := by
  have h := C9_issue_ttl_clamp [] 1000 "48h" "bob" (some (48 * hourNs))
    "crd_new"
  have hm : min ((some (48 * hourNs) : Option Int).getD hourNs) dayNs =
      dayNs := h.2.2.1 (48 * hourNs) rfl (by decide)
  refine ⟨?_, ?_⟩
  · have := h.1
    rwa [hm] at this
  · have := h.2.2.2
    rwa [hm] at this

/-! ## Streaming relay claim C8 -/

theorem relayChunks_bound : ∀ l : List (List Nat),
    ∀ c ∈ relayChunks l, c ≠ [] ∧ c.length ≤ 4096 := by
  intro l
  induction l using relayChunks.induct with
  | case1 => simp [relayChunks]
  | case2 d rest h ih =>
    rw [relayChunks]
    simp only [dif_pos h]
    intro c hc
    rcases List.mem_cons.mp hc with h1 | h1
    · subst h1
      have hlen : (d.take 4096).length = 4096 := by
        simp [List.length_take]
        omega
      constructor
      · intro hnil
        rw [hnil] at hlen
        simp at hlen
      · simp
    · exact ih c h1
  | case3 d rest h hd ih =>
    rw [relayChunks]
    simp only [dif_neg h, if_pos hd]
    exact ih
  | case4 d rest h hd ih =>
    rw [relayChunks]
    simp only [dif_neg h, if_neg hd]
    intro c hc
    rcases List.mem_cons.mp hc with h1 | h1
    · subst h1
      refine ⟨by simpa using hd, by omega⟩
    · exact ih c h1

theorem relayChunks_flatten : ∀ l : List (List Nat),
    (relayChunks l).flatten = l.flatten := by
  intro l
  induction l using relayChunks.induct with
  | case1 => simp [relayChunks]
  | case2 d rest h ih =>
    rw [relayChunks]
    simp only [dif_pos h]
    rw [List.flatten_cons, ih]
    rw [List.flatten_cons, ← List.append_assoc, List.take_append_drop,
      List.flatten_cons]
  | case3 d rest h hd ih =>
    rw [relayChunks]
    simp only [dif_neg h, if_pos hd]
    rw [ih]
    have : d = [] := by simpa using hd
    simp [this]
  | case4 d rest h hd ih =>
    rw [relayChunks]
    simp only [dif_neg h, if_neg hd]
    rw [List.flatten_cons, ih, List.flatten_cons]

theorem handleStreamingLoop_nofail (wfail : Nat → Bool)
    (hw : ∀ j, wfail j = false) :
    ∀ (l : List (List Nat)) (i : Nat),
    handleStreamingLoop wfail l i =
      ((relayChunks l).flatMap
        (fun c => [RelayEvent.write c, RelayEvent.flush]),
       StopReason.readDone) := by
  intro l
  induction l using relayChunks.induct with
  | case1 => intro i; rw [handleStreamingLoop, relayChunks]; simp
  | case2 d rest h ih =>
    intro i
    rw [handleStreamingLoop, relayChunks]
    simp only [dif_pos h, hw i, Bool.false_eq_true, if_false, ih (i + 1)]
    simp
  | case3 d rest h hd ih =>
    intro i
    rw [handleStreamingLoop, relayChunks]
    simp only [dif_neg h, if_pos hd, ih i]
  | case4 d rest h hd ih =>
    intro i
    rw [handleStreamingLoop, relayChunks]
    simp only [dif_neg h, if_neg hd, hw i, Bool.false_eq_true, if_false,
      ih (i + 1)]
    simp

theorem handleStreamingLoop_shape (wfail : Nat → Bool) :
    ∀ (l : List (List Nat)) (i : Nat),
    ∃ cs : List (List Nat),
      (handleStreamingLoop wfail l i).1 =
        cs.flatMap (fun c => [RelayEvent.write c, RelayEvent.flush]) ∧
      ∀ c ∈ cs, c ≠ [] ∧ c.length ≤ 4096 := by
  intro l
  induction l using relayChunks.induct with
  | case1 =>
    intro i
    exact ⟨[], by rw [handleStreamingLoop]; simp, by simp⟩
  | case2 d rest h ih =>
    intro i
    by_cases hw : wfail i = true
    · refine ⟨[], ?_, by simp⟩
      rw [handleStreamingLoop]
      simp [dif_pos h, hw]
    · rcases ih (i + 1) with ⟨cs, hcs, hbound⟩
      refine ⟨d.take 4096 :: cs, ?_, ?_⟩
      · rw [handleStreamingLoop]
        simp only [dif_pos h, hw]
        simp [hcs]
      · intro c hc
        rcases List.mem_cons.mp hc with h1 | h1
        · subst h1
          have hlen : (d.take 4096).length = 4096 := by
            simp [List.length_take]
            omega
          constructor
          · intro hnil
            rw [hnil] at hlen
            simp at hlen
          · simp
        · exact hbound c h1
  | case3 d rest h hd ih =>
    intro i
    rcases ih i with ⟨cs, hcs, hbound⟩
    refine ⟨cs, ?_, hbound⟩
    rw [handleStreamingLoop]
    simp only [dif_neg h, if_pos hd]
    exact hcs
  | case4 d rest h hd ih =>
    intro i
    have hd2 : ¬ (d = []) := by simpa using hd
    by_cases hw : wfail i = true
    · refine ⟨[], ?_, by simp⟩
      rw [handleStreamingLoop]
      simp [dif_neg h, if_neg hd, hw, hd2]
    · rcases ih (i + 1) with ⟨cs, hcs, hbound⟩
      refine ⟨d :: cs, ?_, ?_⟩
      · rw [handleStreamingLoop]
        simp only [dif_neg h, if_neg hd, hw]
        simp [hcs]
      · intro c hc
        rcases List.mem_cons.mp hc with h1 | h1
        · subst h1
          exact ⟨by simpa using hd, by omega⟩
        · exact hbound c h1

theorem writtenBytes_flatMap (cs : List (List Nat)) :
    writtenBytes (cs.flatMap
      (fun c => [RelayEvent.write c, RelayEvent.flush])) = cs.flatten := by
  induction cs with
  | nil => rfl
  | cons c rest ih =>
    simp [writtenBytes] at ih ⊢
    exact ih

/-- C8: the streaming relay loop's client-visible trace is a sequence of
writes, each of a nonempty chunk of at most 4096 bytes (the buffer size),
each immediately followed by a flush before the next read — never one
buffered write of the whole body. It terminates exactly on upstream EOF /
read error (modelled as exhaustion of the delivery list, reason
`readDone`) or on a failed client write (`writeFailed`); when the client
never fails, the trace is exactly the upstream deliveries cut into
buffer-sized chunks, and the bytes delivered to the client are exactly the
upstream body. -/
theorem C8_streaming_relay (deliveries : List (List Nat))
    (wfail : Nat → Bool) :
    (∃ cs : List (List Nat),
      (handleStreamingLoop wfail deliveries 0).1 =
        cs.flatMap (fun c => [RelayEvent.write c, RelayEvent.flush]) ∧
      ∀ c ∈ cs, c ≠ [] ∧ c.length ≤ 4096) ∧
    ((∀ j, wfail j = false) →
      handleStreamingLoop wfail deliveries 0 =
        ((relayChunks deliveries).flatMap
          (fun c => [RelayEvent.write c, RelayEvent.flush]),
         StopReason.readDone) ∧
      writtenBytes (handleStreamingLoop wfail deliveries 0).1 =
        deliveries.flatten) := by
  refine ⟨handleStreamingLoop_shape wfail deliveries 0, ?_⟩
  intro hw
  have h := handleStreamingLoop_nofail wfail hw deliveries 0
  refine ⟨h, ?_⟩
  simp only [h]
  rw [writtenBytes_flatMap, relayChunks_flatten]

theorem C8_streaming_relay_witness :
    (handleStreamingLoop (fun _ => false) [[1, 2, 3], [], [4]] 0).2 =
      StopReason.readDone ∧
    writtenBytes (handleStreamingLoop (fun _ => false)
      [[1, 2, 3], [], [4]] 0).1 = [1, 2, 3, 4] := by
  have h := (C8_streaming_relay [[1, 2, 3], [], [4]] (fun _ => false)).2
    (fun j => rfl)
  exact ⟨by rw [h.1], by rw [h.2]; rfl⟩
